import Mathlib

/-!
Verification development for the Langchain email query bot repository.
The ingestion and cleaning pipeline, the vector store builder and the
retrieval and conversational query flow are shallowly embedded below, and
the specification claims are settled as theorems about the embedding.
Text is modelled as lists of characters; the regex substitutions of the
source are modelled as deterministic leftmost scans, which is exact for
the patterns used (their character classes exclude the closing delimiter,
so the regex engine has no backtracking freedom on them).
-/

set_option maxRecDepth 40000

/-- Text is modelled as a list of characters. -/
abbrev Text := List Char

/-- Coerce a string literal into the character list model. -/
def txt (s : String) : Text := s.data

/-- Whitespace characters of Python str.split and of the regex class \s,
restricted to the ASCII range used throughout this development. -/
def isPySpace (c : Char) : Bool :=
  c = ' ' || c = '\t' || c = '\n' || c = '\r' || c = '\x0b' || c = '\x0c'

/-- Accumulator based model of Python str.split with no argument: split on
whitespace runs and drop empty fields. -/
def splitWsAux : Text → Text → List Text
  | [], acc => if acc = [] then [] else [acc.reverse]
  | c :: cs, acc =>
    if isPySpace c then
      if acc = [] then splitWsAux cs []
      else acc.reverse :: splitWsAux cs []
    else splitWsAux cs (c :: acc)

/-- Python str.split with no argument. -/
def pySplitWs (s : Text) : List Text := splitWsAux s []

/-- Python join with a single space separator. -/
def joinSp : List Text → Text
  | [] => []
  | [w] => w
  | w :: ws => w ++ ' ' :: joinSp ws

/-- The whitespace normalisation idiom of fetch_emails line 147:
join the fields of str.split with single spaces. -/
def collapseWs (s : Text) : Text := joinSp (pySplitWs s)

/-- True when the text has two consecutive whitespace characters. -/
def hasWsRun : Text → Bool
  | c1 :: c2 :: rest => (isPySpace c1 && isPySpace c2) || hasWsRun (c2 :: rest)
  | _ => false

/-- Substring test. -/
def containsSub (pat : Text) : Text → Bool
  | [] => pat.isPrefixOf []
  | c :: cs => pat.isPrefixOf (c :: cs) || containsSub pat cs

/-- Strip leading and trailing whitespace, as Python str.strip. -/
def pyStrip (s : Text) : Text :=
  ((s.dropWhile isPySpace).reverse.dropWhile isPySpace).reverse

/-- A matcher models one substitution pattern: given the character before
the current position (for word boundary tests) and the remaining text, it
returns the replacement, the rest of the input after the matched stretch
and the new preceding character, or none when the pattern does not match
at this position. -/
abbrev Matcher := Option Char → Text → Option (Text × Text × Option Char)

/-- Leftmost non-overlapping substitution as performed by re.sub and by
str.replace: scan left to right, at each position try the matcher, emit
the replacement and resume right after the match. Fuel bounds the
recursion; it is always supplied as the input length, which suffices
because every matcher used below consumes at least one character. -/
def scrub (m : Matcher) : Nat → Option Char → Text → Text
  | 0, _, s => s
  | _ + 1, _, [] => []
  | fuel + 1, prev, c :: cs =>
    match m prev (c :: cs) with
    | some (rep, rest, np) => rep ++ scrub m fuel np rest
    | none => c :: scrub m fuel (some c) cs

/-- Run one substitution pass over a whole text. -/
def subst (m : Matcher) (s : Text) : Text := scrub m s.length none s

/-- Lower case image of a text, for the case insensitive regex flags. -/
def lowerTxt (s : Text) : Text := s.map Char.toLower

/-- Case insensitive prefix test. -/
def ciStarts (pat s : Text) : Bool := (lowerTxt pat).isPrefixOf (lowerTxt s)

/-- Drop everything up to and including the first case insensitive
occurrence of pat; none when pat does not occur. This models the shortest
match of a non-greedy dot-all stretch followed by pat. -/
def dropThroughCI (pat : Text) : Text → Option Text
  | [] => none
  | c :: cs =>
    if ciStarts pat (c :: cs) then some ((c :: cs).drop pat.length)
    else dropThroughCI pat cs

/-- Case sensitive variant of dropThroughCI. -/
def dropThrough (pat : Text) : Text → Option Text
  | [] => none
  | c :: cs =>
    if pat.isPrefixOf (c :: cs) then some ((c :: cs).drop pat.length)
    else dropThrough pat cs

/-- Matcher for the style and script block patterns of the source: the
case insensitive opening tag, any characters up to the first closing
angle bracket, then the shortest stretch up to the closing tag. The
character class before the bracket excludes the bracket itself, so the
scan is exact for this regex. -/
def matchTagBlock (openTag closeTag : Text) : Matcher := fun _ s =>
  match s with
  | '<' :: _ =>
    if ciStarts openTag s then
      match (s.drop openTag.length).dropWhile (fun c => c ≠ '>') with
      | '>' :: r1 =>
        match dropThroughCI closeTag r1 with
        | some r2 => some ([], r2, some '>')
        | none => none
      | [] => none
      | _ :: _ => none
    else none
  | _ => none

/-- Matcher for the tag stripping pattern: an opening angle bracket, one
or more characters other than a closing bracket, then the closing
bracket. -/
def matchTag : Matcher := fun _ s =>
  match s with
  | '<' :: cs =>
    match cs.dropWhile (fun c => c ≠ '>') with
    | '>' :: r =>
      if cs.takeWhile (fun c => c ≠ '>') = [] then none
      else some ([], r, some '>')
    | [] => none
    | _ :: _ => none
  | _ => none

/-- Matcher for Python str.replace with a fixed pattern and replacement. -/
def matchLit (pat rep : Text) : Matcher := fun _ s =>
  if pat.isPrefixOf s then some (rep, s.drop pat.length, pat.getLast?)
  else none

/-- Apply a sequence of str.replace steps in order. -/
def applyReplaces (ps : List (Text × Text)) (s : Text) : Text :=
  ps.foldl (fun acc p => subst (matchLit p.1 p.2) acc) s

/-- Matcher for the HTML comment pattern: the opening marker, then the
shortest stretch up to the closing marker. -/
def matchHtmlComment : Matcher := fun _ s =>
  match s with
  | '<' :: _ =>
    if (txt "<!--").isPrefixOf s then
      match dropThrough (txt "-->") (s.drop 4) with
      | some r => some ([], r, some '>')
      | none => none
    else none
  | _ => none

/-- Matcher for the CSS comment pattern. -/
def matchCssComment : Matcher := fun _ s =>
  match s with
  | '/' :: _ =>
    if (txt "/*").isPrefixOf s then
      match dropThrough (txt "*/") (s.drop 2) with
      | some r => some ([], r, some '/')
      | none => none
    else none
  | _ => none

/-- Word characters of the regex word boundary, ASCII range. -/
def isWordChar (c : Char) : Bool := c.isAlphanum || c = '_'

/-- Characters of the CSS property name class: letters and hyphen. -/
def isCssNameChar (c : Char) : Bool := c.isAlpha || c = '-'

/-- Characters allowed in the CSS declaration value class: anything other
than semicolon, braces and newline. -/
def cssValueChar (c : Char) : Bool :=
  c ≠ ';' && c ≠ '\x7b' && c ≠ '\x7d' && c ≠ '\n'

/-- Matcher for the CSS declaration heuristic of the source: a word
boundary, a run of letters or hyphens, optional whitespace, a colon,
optional whitespace, a nonempty run of value characters, then a
semicolon. -/
def matchCssDecl : Matcher := fun prev s =>
  match s with
  | [] => none
  | c :: _ =>
    let prevW := match prev with
      | some p => isWordChar p
      | none => false
    if prevW = isWordChar c then none
    else if s.takeWhile isCssNameChar = [] then none
    else
      match ((s.dropWhile isCssNameChar).dropWhile isPySpace) with
      | [] => none
      | a :: r3 =>
        if a = ':' then
          let r4 := r3.dropWhile isPySpace
          if r4.takeWhile cssValueChar = [] then none
          else
            match r4.dropWhile cssValueChar with
            | [] => none
            | b :: r5 => if b = ';' then some ([], r5, some ';') else none
        else none

/-- Matcher for the residual brace block pattern: an opening brace, any
characters other than braces, then a closing brace. -/
def matchBraces : Matcher := fun _ s =>
  match s with
  | [] => none
  | c :: cs =>
    if c = '\x7b' then
      match cs.dropWhile (fun x => x ≠ '\x7b' && x ≠ '\x7d') with
      | [] => none
      | b :: r => if b = '\x7d' then some ([], r, some '\x7d') else none
    else none

/-- Matcher for the CSS at-rule pattern of clean_email: an at sign,
letters or hyphens, at least one whitespace character, any characters up
to the first opening brace, the brace, any characters up to the first
closing brace, the brace. -/
def matchAtRule : Matcher := fun _ s =>
  match s with
  | [] => none
  | c :: cs =>
    if c = '@' then
      if cs.takeWhile isCssNameChar = [] then none
      else
        let r1 := cs.dropWhile isCssNameChar
        if r1.takeWhile isPySpace = [] then none
        else
          match (r1.dropWhile isPySpace).dropWhile (fun x => x ≠ '\x7b') with
          | [] => none
          | _ :: r3 =>
            match r3.dropWhile (fun x => x ≠ '\x7d') with
            | [] => none
            | _ :: r4 => some ([], r4, some '\x7d')
    else none

/-- Matcher for the whitespace run pattern of clean_email, replaced by a
single space. -/
def matchWsRun : Matcher := fun _ s =>
  match s with
  | [] => none
  | c :: _ =>
    if isPySpace c then
      some ([' '], s.dropWhile isPySpace, (s.takeWhile isPySpace).getLast?)
    else none

/-- Matcher for the isolated digit run pattern of clean_email: whitespace,
digits, whitespace, replaced by a single space. -/
def matchIsolatedNum : Matcher := fun _ s =>
  match s with
  | [] => none
  | c :: _ =>
    if isPySpace c then
      let r1 := s.dropWhile isPySpace
      if r1.takeWhile Char.isDigit = [] then none
      else
        let r2 := r1.dropWhile Char.isDigit
        if r2.takeWhile isPySpace = [] then none
        else some ([' '], r2.dropWhile isPySpace, (r2.takeWhile isPySpace).getLast?)
    else none

/-- The anchored leading digit pattern of clean_email: digits then
whitespace, removed at most once at the very start of the text. -/
def stripLeadingNum (s : Text) : Text :=
  if s.takeWhile Char.isDigit = [] then s
  else
    let r := s.dropWhile Char.isDigit
    if r.takeWhile isPySpace = [] then s else r.dropWhile isPySpace

/-- Named entity replacements of the HTML fallback branch of fetch_emails,
in source order. -/
def fetchEntities : List (Text × Text) :=
  [(txt "&nbsp;", txt " "), (txt "&amp;", txt "&"), (txt "&lt;", txt "<"),
   (txt "&gt;", txt ">"), (txt "&quot;", txt "\""), (txt "&#39;", txt "\x27"),
   (txt "&apos;", txt "\x27"), (txt "&mdash;", txt "—"), (txt "&ndash;", txt "–"),
   (txt "&hellip;", txt "...")]

/-- Named entity replacements of clean_email, in source order: the fetch
table followed by the copyright and registered signs. -/
def cleanEntities : List (Text × Text) :=
  fetchEntities ++ [(txt "&copy;", txt "(c)"), (txt "&reg;", txt "(R)")]

/-- The HTML fallback sanitization performed inside fetch_emails when a
message yielded only an HTML body (agent_email_fetch.py lines 106 to 147).
The two comment removal substitutions of lines 140 and 141 are applied to
the html variable after the body has already been derived from it, so they
cannot affect the result; they are kept as dead bindings to mirror the
source faithfully. -/
def sanitizeHtmlFallback (html : Text) : Text :=
  let h1 := subst (matchTagBlock (txt "<style") (txt "</style>")) html
  let h2 := subst (matchTagBlock (txt "<script") (txt "</script>")) h1
  let body1 := subst matchTag h2
  let body2 := applyReplaces fetchEntities body1
  let _h3 := subst matchHtmlComment h2
  let _h4 := subst matchCssComment _h3
  let body3 := subst matchCssDecl body2
  let body4 := subst matchBraces body3
  collapseWs body4

/-- Modelled from the spec: EmailReplyParser.parse_reply belongs to the
external email_reply_parser library, which is not part of this repository.
Per the spec it truncates the body at the start of a quoted reply chain,
keeping only the lines before the first reply marker: a line starting with
a quote mark, or an attribution line of the shape On ... wrote: . -/
def isReplyMarker (l : Text) : Bool :=
  (l.take 1 = ['>']) || ((txt "On ").isPrefixOf l && (txt "wrote:").isSuffixOf l)

/-- Split a text on one separator character, keeping empty fields. -/
def splitOnAux (sep : Char) : Text → Text → List Text
  | [], acc => [acc.reverse]
  | c :: cs, acc =>
    if c = sep then acc.reverse :: splitOnAux sep cs []
    else splitOnAux sep cs (c :: acc)

/-- Split on one separator character. -/
def splitOnChar (sep : Char) (s : Text) : List Text := splitOnAux sep s []

/-- Join a list of lines with newline separators. -/
def joinNl : List Text → Text
  | [] => []
  | [l] => l
  | l :: ls => l ++ '\n' :: joinNl ls

/-- Modelled from the spec: the reply chain truncation step, see
isReplyMarker. -/
def parse_reply (s : Text) : Text :=
  joinNl ((splitOnChar '\n' s).takeWhile (fun l => !isReplyMarker l))

/-- An email record as a Python dictionary: an association list from keys
to text values. -/
abbrev EmailDict := List (Text × Text)

/-- Dictionary access, used only after structural validation. -/
def dictGet (e : EmailDict) (k : Text) : Text := (e.lookup k).getD []

/-- Model of clean_email in agent_email_vector.py lines 42 to 92: the
cleaning chain over the body followed by the header prefixed canonical
combination. -/
def clean_email (e : EmailDict) : Text :=
  let body := dictGet e (txt "body")
  let b1 := subst (matchTagBlock (txt "<style") (txt "</style>")) body
  let b2 := subst (matchTagBlock (txt "<script") (txt "</script>")) b1
  let b3 := subst matchTag b2
  let b4 := applyReplaces cleanEntities b3
  let b5 := subst matchHtmlComment b4
  let b6 := subst matchCssComment b5
  let b7 := subst matchCssDecl b6
  let b8 := subst matchAtRule b7
  let b9 := subst matchBraces b8
  let b10 := stripLeadingNum b9
  let b11 := subst matchIsolatedNum b10
  let b12 := parse_reply b11
  let b13 := pyStrip (subst matchWsRun b12)
  txt "Sender: " ++ dictGet e (txt "sender") ++
  txt "\nSubject: " ++ dictGet e (txt "subject") ++
  txt "\nDate: " ++ dictGet e (txt "date") ++
  txt "\n\n" ++ b13

/-- Failure values of build_vector_store: the empty list check raises a
ValueError directly; a record failing structural validation raises a
ValueError inside the try block, re-raised wrapped by the surrounding
handler. -/
inductive BuildError
  | emptyEmailList
  | invalidEmailStructure
deriving DecidableEq

/-- The required record keys of build_vector_store line 121. -/
def requiredKeys : List Text :=
  [txt "sender", txt "subject", txt "date", txt "body"]

/-- Structural validation of one record. -/
def validEmail (e : EmailDict) : Bool :=
  requiredKeys.all (fun k => (e.lookup k).isSome)

/-- The per record loop of build_vector_store: validate the structure of
each record, then clean it; the first invalid record aborts the whole
batch. Embedding and indexing happen only after this loop has produced the
full list of cleaned texts, so an error value means that no embedding call
was issued for any record of the batch. -/
def cleanedTexts : List EmailDict → Except BuildError (List Text)
  | [] => .ok []
  | e :: es =>
    if validEmail e then
      match cleanedTexts es with
      | .ok ts => .ok (clean_email e :: ts)
      | .error err => .error err
    else .error .invalidEmailStructure

/-- Model of build_vector_store in agent_email_vector.py lines 95 to 150:
reject an empty batch, then validate and clean every record; the resulting
texts are what gets submitted to the embedding and index engine. -/
def build_vector_store (emails : List EmailDict) : Except BuildError (List Text) :=
  if emails = [] then .error .emptyEmailList else cleanedTexts emails

/-- One MIME part: its content type and its decoded payload; none models
an absent payload or a decode failure. -/
structure MimePart where
  contentType : Text
  payload : Option Text
deriving DecidableEq

/-- A message is single part or multipart; for multipart messages the leaf
parts are listed in document order as visited by walk. -/
inductive MimeMessage
  | single (p : MimePart)
  | multi (parts : List MimePart)
deriving DecidableEq

/-- The multipart body selection loop of fetch_emails lines 75 to 91: walk
the parts in document order; the first plain text part that decodes sets
the body and stops the walk; every html part that decodes overwrites the
html fallback; a decode failure is skipped. -/
def walkParts : List MimePart → Text → Text → Text × Text
  | [], body, htmlBody => (body, htmlBody)
  | p :: rest, body, htmlBody =>
    if p.contentType = txt "text/plain" then
      match p.payload with
      | some s => (s, htmlBody)
      | none => walkParts rest body htmlBody
    else if p.contentType = txt "text/html" ∧ body = [] then
      match p.payload with
      | some s => walkParts rest body s
      | none => walkParts rest body htmlBody
    else walkParts rest body htmlBody

/-- Body selection of fetch_emails: the multipart walk, or the single part
branch of lines 92 to 103 where an empty or absent payload leaves both
bodies empty and any content type other than text/html is treated as
plain text. -/
def decodeBody : MimeMessage → Text × Text
  | .multi parts => walkParts parts [] []
  | .single p =>
    match p.payload with
    | some d =>
      if d ≠ [] then
        if p.contentType = txt "text/html" then ([], d) else (d, [])
      else ([], [])
    | none => ([], [])

/-- The record body produced by fetch_emails for one message: the
sanitized HTML fallback when only an HTML body was found, otherwise the
plain body verbatim (lines 106 and 149 to 156). -/
def recordBody (m : MimeMessage) : Text :=
  let bh := decodeBody m
  if bh.1 = [] ∧ bh.2 ≠ [] then sanitizeHtmlFallback bh.2 else bh.1

/-- The payload of the first plain text part that would decode, if any. -/
def firstPlainPayload : MimeMessage → Option Text
  | .single p => if p.contentType = txt "text/plain" then p.payload else none
  | .multi parts =>
    match parts.find? (fun p =>
        decide (p.contentType = txt "text/plain") && p.payload.isSome) with
    | some p => p.payload
    | none => none

/-- The html fallback left by the walk when no plain text part decodes:
every html part that decodes overwrites the previous value. -/
def lastHtmlFallback (parts : List MimePart) (dflt : Text) : Text :=
  parts.foldl (fun acc p =>
    if p.contentType = txt "text/html" then
      match p.payload with
      | some v => v
      | none => acc
    else acc) dflt

/-- Conversation roles of the session history. -/
inductive Role
  | user
  | assistant
deriving DecidableEq

/-- One conversation turn. -/
structure Turn where
  role : Role
  content : Text
deriving DecidableEq

/-- SimpleConversationMemory.save_context of agent_email_query.py lines 20
to 25: append a user turn when the inputs dictionary has the input key,
then an assistant turn when the outputs dictionary has the output key. -/
def save_context (h : List Turn) (inputs outputs : List (Text × Text)) : List Turn :=
  let h1 := match inputs.lookup (txt "input") with
    | some v => h ++ [⟨Role.user, v⟩]
    | none => h
  match outputs.lookup (txt "output") with
  | some v => h1 ++ [⟨Role.assistant, v⟩]
  | none => h1

/-- The Python expression of query_emails line 134, k or the configured
default: a missing argument is modelled by none; an explicit zero is falsy
in Python and also falls back to the default. -/
def effectiveK (dflt : Nat) (k : Option Nat) : Nat :=
  match k with
  | none => dflt
  | some n => if n = 0 then dflt else n

/-- Decimal rendering of a number. -/
def natText (n : Nat) : Text := (toString n).data

/-- One numbered context block of query_emails lines 142 to 145. -/
def emailBlock (i : Nat) (doc : Text) : Text :=
  txt "\n--- Email " ++ natText i ++ txt " ---\n" ++ doc ++ txt "\n"

/-- The list of numbered context blocks, numbering from one as in the
enumerate call of the source. -/
def contextBlocks (docs : List Text) : List Text :=
  docs.enum.map (fun p => emailBlock (p.1 + 1) p.2)

/-- The assembled retrieval context string. -/
def assembleContext (docs : List Text) : Text := (contextBlocks docs).flatten

/-- query_emails with a memory (agent_email_query.py lines 118 to 213):
retrieve with the effective count, assemble the context, invoke the chain
(the completion engine is a collaborator passed as a function), then save
the turn; returns the new history and the answer. -/
def query_emails_mem (search : Text → Nat → List Text)
    (llm : Text → Text → List Turn → Text) (dflt : Nat)
    (history : List Turn) (question : Text) (k : Option Nat) :
    List Turn × Text :=
  let kk := effectiveK dflt k
  let docs := search question kk
  let ctx := assembleContext docs
  let ans := llm ctx question history
  (save_context history [(txt "input", question)] [(txt "output", ans)], ans)

/-- A calendar date. -/
structure Date where
  y : Nat
  m : Nat
  d : Nat
deriving DecidableEq

/-- Gregorian leap year test. -/
def isLeap (y : Nat) : Bool := y % 4 = 0 && (y % 100 ≠ 0 || y % 400 = 0)

/-- Days in a month of the Gregorian calendar. -/
def daysInMonth (y m : Nat) : Nat :=
  if m = 2 then (if isLeap y then 29 else 28)
  else if m = 4 ∨ m = 6 ∨ m = 9 ∨ m = 11 then 30
  else 31

/-- Validity of a date, with the year range of the Python datetime
library. -/
def validDate (dt : Date) : Bool :=
  1 ≤ dt.y && dt.y ≤ 9999 && 1 ≤ dt.m && dt.m ≤ 12 &&
  1 ≤ dt.d && dt.d ≤ daysInMonth dt.y dt.m

/-- The next calendar day. This models the documented behaviour of the
datetime collaborator for adding a one day timedelta. -/
def calSucc (dt : Date) : Date :=
  if dt.d < daysInMonth dt.y dt.m then ⟨dt.y, dt.m, dt.d + 1⟩
  else if dt.m < 12 then ⟨dt.y, dt.m + 1, 1⟩
  else ⟨dt.y + 1, 1, 1⟩

/-- Strict lexicographic order on dates. -/
def dateLt (a b : Date) : Prop :=
  a.y < b.y ∨ (a.y = b.y ∧ (a.m < b.m ∨ (a.m = b.m ∧ a.d < b.d)))

/-- Reflexive order on dates. -/
def dateLe (a b : Date) : Prop := dateLt a b ∨ a = b

/-- Digit character. -/
def digitChar (n : Nat) : Char := Char.ofNat (48 + n)

/-- Two digit zero padded rendering, as the strftime day directive. -/
def pad2 (n : Nat) : Text := [digitChar (n / 10 % 10), digitChar (n % 10)]

/-- Four digit zero padded rendering, as the strftime year directive for
four digit years. -/
def pad4 (n : Nat) : Text :=
  [digitChar (n / 1000 % 10), digitChar (n / 100 % 10),
   digitChar (n / 10 % 10), digitChar (n % 10)]

/-- English month abbreviations of the strftime month directive. -/
def monthAbbrev (m : Nat) : Text :=
  if m = 1 then txt "Jan" else if m = 2 then txt "Feb"
  else if m = 3 then txt "Mar" else if m = 4 then txt "Apr"
  else if m = 5 then txt "May" else if m = 6 then txt "Jun"
  else if m = 7 then txt "Jul" else if m = 8 then txt "Aug"
  else if m = 9 then txt "Sep" else if m = 10 then txt "Oct"
  else if m = 11 then txt "Nov" else txt "Dec"

/-- The ISO rendering used at the caller boundary. -/
def formatISO (dt : Date) : Text :=
  pad4 dt.y ++ '-' :: pad2 dt.m ++ '-' :: pad2 dt.d

/-- The mailbox search rendering, day dash month abbreviation dash year. -/
def formatDMY (dt : Date) : Text :=
  pad2 dt.d ++ '-' :: monthAbbrev dt.m ++ '-' :: pad4 dt.y

/-- All characters are digits. -/
def allDigits (t : Text) : Bool := t.all Char.isDigit

/-- Numeric value of a digit string. -/
def natOfDigits (t : Text) : Nat := t.foldl (fun a c => 10 * a + (c.toNat - 48)) 0

/-- Model of strptime with the ISO format: three dash separated digit
fields of the widths accepted by the year, month and day directives, then
the range validation performed by the date constructor. -/
def parseDate (s : Text) : Option Date :=
  match splitOnChar '-' s with
  | [ys, ms, ds] =>
    if allDigits ys && ys ≠ [] && ys.length ≤ 4 &&
       allDigits ms && ms ≠ [] && ms.length ≤ 2 &&
       allDigits ds && ds ≠ [] && ds.length ≤ 2 then
      let dt : Date := ⟨natOfDigits ys, natOfDigits ms, natOfDigits ds⟩
      if validDate dt then some dt else none
    else none
  | _ => none

/-- The search expression construction of fetch_emails lines 47 to 53:
parse the end date, add one day (failing on the datetime overflow at the
maximal date), parse the start date, render both in the mailbox format and
assemble the parenthesised SINCE BEFORE expression. -/
def buildSearchQuery (startDate endDate : Text) : Option Text := do
  let e ← parseDate endDate
  let e1 ← if e.y = 9999 ∧ e.m = 12 ∧ e.d = 31 then none else some (calSucc e)
  let s ← parseDate startDate
  pure (txt "(SINCE \"" ++ formatDMY s ++ txt "\" BEFORE \"" ++
        formatDMY e1 ++ txt "\")")

/-- A concrete retrieval engine used in the claim one counterexample and
witness: it stores two documents and honours the contract of returning at
most the requested number of results. -/
def searchStore : Text → Nat → List Text :=
  fun _ m => List.take m [txt "first doc", txt "second doc"]

/-- Concrete message of the claim three counterexample: an html part
followed by a plain text part whose payload decodes to the empty string. -/
def exMsgEmptyPlain : MimeMessage :=
  .multi [⟨txt "text/html", some (txt "<b>H</b>")⟩, ⟨txt "text/plain", some []⟩]

/-- Concrete message of the claim five counterexample: a single part plain
text message whose body holds markup and a whitespace run. -/
def exMsgPlainMarkup : MimeMessage :=
  .single ⟨txt "text/plain", some (txt "a  <b>c</b>")⟩

/-- Concrete part list of the claim six counterexample: two html parts and
no plain text part. -/
def exPartsTwoHtml : List MimePart :=
  [⟨txt "text/html", some (txt "A")⟩, ⟨txt "text/html", some (txt "B")⟩]

/-- Concrete input of the claim two counterexample. -/
def exEntityInput : Text := txt "&lt;b&gt;hi&lt;/b&gt;"

/-- Concrete failing input of claim seven: an html fallback body carrying
a CSS comment. -/
def exCssCommentInput : Text := txt "/* hidden */ keep"

/-- Concrete invalid record of the claim nine witness: the body key is
missing. -/
def exBadEmail : EmailDict :=
  [(txt "sender", txt "s"), (txt "subject", txt "t"), (txt "date", txt "d")]

/-! Generic lemmas about the substitution scanner and the whitespace
collapse. -/

theorem not_mem_of_suffix {a : Char} {t s : Text} (hsuf : t <:+ s) (h : a ∉ s) :
    a ∉ t := by
  intro hm
  obtain ⟨pre, hpre⟩ := hsuf
  exact h (hpre ▸ List.mem_append_right pre hm)

theorem mem_of_mem_dropWhile {p : Char → Bool} {a : Char} :
    ∀ {l : Text}, a ∈ l.dropWhile p → a ∈ l := by
  intro l
  induction l with
  | nil => intro h; simp [List.dropWhile] at h
  | cons c cs ih =>
    intro h
    rw [List.dropWhile_cons] at h
    by_cases hc : p c
    · rw [if_pos hc] at h
      exact List.mem_cons_of_mem _ (ih h)
    · rw [if_neg hc] at h
      exact h

theorem scrub_id (m : Matcher) :
    ∀ (fuel : Nat) (prev : Option Char) (s : Text),
      (∀ prev2 t, t <:+ s → m prev2 t = none) → scrub m fuel prev s = s := by
  intro fuel
  induction fuel with
  | zero => intro prev s _; rfl
  | succ n ih =>
    intro prev s H
    cases s with
    | nil => rfl
    | cons c cs =>
      show (match m prev (c :: cs) with
            | some (rep, rest, np) => rep ++ scrub m n np rest
            | none => c :: scrub m n (some c) cs) = c :: cs
      rw [H prev (c :: cs) (List.suffix_refl _)]
      show c :: scrub m n (some c) cs = c :: cs
      rw [ih (some c) cs (fun pr t ht => H pr t (ht.trans (List.suffix_cons c cs)))]

theorem subst_id (m : Matcher) (s : Text)
    (H : ∀ prev t, t <:+ s → m prev t = none) : subst m s = s :=
  scrub_id m s.length none s H

theorem matchTagBlock_none (o c2 : Text) (prev : Option Char) (t : Text)
    (h : '<' ∉ t) : matchTagBlock o c2 prev t = none := by
  unfold matchTagBlock
  split
  · exact absurd (List.mem_cons_self _ _) h
  · rfl

theorem matchTag_none (prev : Option Char) (t : Text) (h : '<' ∉ t) :
    matchTag prev t = none := by
  unfold matchTag
  split
  · exact absurd (List.mem_cons_self _ _) h
  · rfl

theorem matchBraces_none (prev : Option Char) (t : Text) (h : '\x7b' ∉ t) :
    matchBraces prev t = none := by
  unfold matchBraces
  cases t with
  | nil => rfl
  | cons c cs =>
    have hc : c ≠ '\x7b' := fun hcc => h (hcc ▸ List.mem_cons_self c cs)
    simp only []
    rw [if_neg hc]

theorem matchLit_cons_none (a : Char) (q rep : Text) (prev : Option Char)
    (t : Text) (h : a ∉ t) : matchLit (a :: q) rep prev t = none := by
  have hfalse : (a :: q).isPrefixOf t = false := by
    cases t with
    | nil => rfl
    | cons c cs =>
      have hac : (a == c) = false := by
        simp only [beq_eq_false_iff_ne]
        intro heq
        exact h (heq ▸ List.mem_cons_self c cs)
      simp [List.isPrefixOf, hac]
  simp [matchLit, hfalse]

theorem matchCssDecl_none (prev : Option Char) (t : Text) (h : ':' ∉ t) :
    matchCssDecl prev t = none := by
  unfold matchCssDecl
  split
  · rfl
  · rename_i c tl
    simp only []
    split
    · rfl
    · split
      · rfl
      · split
        · rfl
        · rename_i a r3 heq
          have ha : a ≠ ':' := by
            intro rfl_a
            apply h
            have : a ∈ ((c :: tl).dropWhile isCssNameChar).dropWhile isPySpace := by
              rw [heq]; exact List.mem_cons_self _ _
            exact rfl_a ▸ mem_of_mem_dropWhile (mem_of_mem_dropWhile this)
          rw [if_neg ha]

theorem applyReplaces_amp_id : ∀ (ps : List (Text × Text)) (s : Text),
    (∀ p ∈ ps, p.1.head? = some '&') → '&' ∉ s → applyReplaces ps s = s := by
  intro ps
  induction ps with
  | nil => intro s _ _; rfl
  | cons p ps ih =>
    intro s hh hs
    have hp := hh p (List.mem_cons_self _ _)
    have hsub : subst (matchLit p.1 p.2) s = s := by
      apply subst_id
      intro prev t ht
      cases hp1 : p.1 with
      | nil => rw [hp1] at hp; cases hp
      | cons a q =>
        rw [hp1] at hp
        simp only [List.head?_cons, Option.some.injEq] at hp
        rw [hp]
        exact matchLit_cons_none '&' q p.2 prev t (not_mem_of_suffix ht hs)
    show applyReplaces ps (subst (matchLit p.1 p.2) s) = s
    rw [hsub]
    exact ih s (fun q hq => hh q (List.mem_cons_of_mem _ hq)) hs

/-! Lemmas about the whitespace collapse. -/

theorem splitWsAux_nil_eq (acc : Text) :
    splitWsAux [] acc = if acc = [] then [] else [acc.reverse] := rfl

theorem splitWsAux_cons_eq (c : Char) (cs acc : Text) :
    splitWsAux (c :: cs) acc =
      if isPySpace c then
        (if acc = [] then splitWsAux cs [] else acc.reverse :: splitWsAux cs [])
      else splitWsAux cs (c :: acc) := rfl

theorem splitWsAux_words : ∀ (s acc : Text),
    (∀ c ∈ acc, isPySpace c = false) →
    ∀ w ∈ splitWsAux s acc, w ≠ [] ∧ ∀ c ∈ w, isPySpace c = false := by
  intro s
  induction s with
  | nil =>
    intro acc hacc w hw
    rw [splitWsAux_nil_eq] at hw
    by_cases ha : acc = []
    · rw [if_pos ha] at hw
      cases hw
    · rw [if_neg ha] at hw
      rcases List.mem_singleton.mp hw with rfl
      refine ⟨by simpa using ha, ?_⟩
      intro c hc
      exact hacc c (List.mem_reverse.mp hc)
  | cons c cs ih =>
    intro acc hacc w hw
    rw [splitWsAux_cons_eq] at hw
    by_cases hc : isPySpace c
    · rw [if_pos hc] at hw
      by_cases ha : acc = []
      · rw [if_pos ha] at hw
        exact ih [] (by simp) w hw
      · rw [if_neg ha] at hw
        rcases List.mem_cons.mp hw with rfl | hw2
        · refine ⟨by simpa using ha, ?_⟩
          intro x hx
          exact hacc x (List.mem_reverse.mp hx)
        · exact ih [] (by simp) w hw2
    · rw [if_neg hc] at hw
      refine ih (c :: acc) ?_ w hw
      intro x hx
      rcases List.mem_cons.mp hx with rfl | hx2
      · simpa using hc
      · exact hacc x hx2

theorem splitWsAux_word_skip (w : Text) (hw : ∀ c ∈ w, isPySpace c = false) :
    ∀ (s acc : Text), splitWsAux (w ++ s) acc = splitWsAux s (w.reverse ++ acc) := by
  induction w with
  | nil => intro s acc; simp
  | cons a w ih =>
    intro s acc
    have ha := hw a (List.mem_cons_self _ _)
    rw [List.cons_append, splitWsAux_cons_eq, ha]
    simp only [Bool.false_eq_true, if_false]
    rw [ih (fun c hc => hw c (List.mem_cons_of_mem _ hc)) s (a :: acc)]
    simp [List.append_assoc]

theorem joinSp_cons_cons (w x : Text) (xs : List Text) :
    joinSp (w :: x :: xs) = w ++ ' ' :: joinSp (x :: xs) := rfl

theorem joinSp_eq_append (w : Text) (ws : List Text) :
    ∃ r, joinSp (w :: ws) = w ++ r := by
  cases ws with
  | nil => exact ⟨[], by simp [joinSp]⟩
  | cons x xs => exact ⟨' ' :: joinSp (x :: xs), rfl⟩

theorem pySplitWs_joinSp : ∀ (ws : List Text),
    (∀ w ∈ ws, w ≠ [] ∧ ∀ c ∈ w, isPySpace c = false) →
    pySplitWs (joinSp ws) = ws := by
  intro ws
  induction ws with
  | nil => intro _; rfl
  | cons w ws ih =>
    intro h
    obtain ⟨hw1, hw2⟩ := h w (List.mem_cons_self _ _)
    cases ws with
    | nil =>
      show splitWsAux (joinSp [w]) [] = [w]
      have h1 := splitWsAux_word_skip w hw2 [] []
      rw [List.append_nil] at h1
      show splitWsAux w [] = [w]
      rw [h1, List.append_nil, splitWsAux_nil_eq,
          if_neg (by simpa using hw1), List.reverse_reverse]
    | cons x xs =>
      show splitWsAux (joinSp (w :: x :: xs)) [] = w :: x :: xs
      rw [joinSp_cons_cons, splitWsAux_word_skip w hw2, List.append_nil,
          splitWsAux_cons_eq]
      have hsp : isPySpace ' ' = true := rfl
      rw [hsp]
      simp only [if_true]
      rw [if_neg (by simpa using hw1), List.reverse_reverse]
      have := ih (fun q hq => h q (List.mem_cons_of_mem _ hq))
      rw [show splitWsAux (joinSp (x :: xs)) [] = pySplitWs (joinSp (x :: xs)) from rfl,
          this]

theorem collapseWs_idem (s : Text) : collapseWs (collapseWs s) = collapseWs s := by
  show joinSp (pySplitWs (joinSp (pySplitWs s))) = joinSp (pySplitWs s)
  rw [pySplitWs_joinSp (pySplitWs s) (splitWsAux_words s [] (by simp))]

theorem hasWsRun_cons (c : Char) (t : Text) (hc : isPySpace c = false) :
    hasWsRun (c :: t) = hasWsRun t := by
  cases t with
  | nil => rfl
  | cons d r => simp [hasWsRun, hc]

theorem hasWsRun_append (w r : Text) (hw : ∀ c ∈ w, isPySpace c = false) :
    hasWsRun (w ++ r) = hasWsRun r := by
  induction w with
  | nil => rfl
  | cons a w ih =>
    have ha := hw a (List.mem_cons_self _ _)
    rw [List.cons_append, hasWsRun_cons a _ ha,
        ih (fun c hc => hw c (List.mem_cons_of_mem _ hc))]

theorem hasWsRun_of_no_space (w : Text) (hw : ∀ c ∈ w, isPySpace c = false) :
    hasWsRun w = false := by
  induction w with
  | nil => rfl
  | cons a w ih =>
    rw [hasWsRun_cons a w (hw a (List.mem_cons_self _ _))]
    exact ih (fun c hc => hw c (List.mem_cons_of_mem _ hc))

theorem hasWsRun_joinSp : ∀ (ws : List Text),
    (∀ w ∈ ws, w ≠ [] ∧ ∀ c ∈ w, isPySpace c = false) →
    hasWsRun (joinSp ws) = false := by
  intro ws
  induction ws with
  | nil => intro _; rfl
  | cons w ws ih =>
    intro h
    obtain ⟨hw1, hw2⟩ := h w (List.mem_cons_self _ _)
    cases ws with
    | nil => exact hasWsRun_of_no_space w hw2
    | cons x xs =>
      rw [joinSp_cons_cons, hasWsRun_append w _ hw2]
      obtain ⟨r, hr⟩ := joinSp_eq_append x xs
      obtain ⟨hx1, hx2⟩ := h x (List.mem_cons_of_mem _ (List.mem_cons_self _ _))
      cases x with
      | nil => exact absurd rfl hx1
      | cons c0 x2 =>
        rw [hr]
        have hc0 : isPySpace c0 = false := hx2 c0 (List.mem_cons_self _ _)
        show hasWsRun (' ' :: c0 :: (x2 ++ r)) = false
        have hstep : hasWsRun (' ' :: c0 :: (x2 ++ r)) = hasWsRun (c0 :: (x2 ++ r)) := by
          simp [hasWsRun, hc0]
        rw [hstep, show (c0 :: (x2 ++ r) : Text) = (c0 :: x2) ++ r from rfl, ← hr]
        exact ih (fun q hq => h q (List.mem_cons_of_mem _ hq))

theorem hasWsRun_collapseWs (s : Text) : hasWsRun (collapseWs s) = false :=
  hasWsRun_joinSp (pySplitWs s) (splitWsAux_words s [] (by simp))

/-- When a text contains no opening angle bracket, no ampersand, no colon
and no opening brace, every stage of the HTML fallback sanitizer before
the whitespace collapse leaves it unchanged. -/
theorem sanitizeHtmlFallback_of_inert (y : Text)
    (h1 : '<' ∉ y) (h2 : '&' ∉ y) (h3 : ':' ∉ y) (h4 : '\x7b' ∉ y) :
    sanitizeHtmlFallback y = collapseWs y := by
  have hstyle : subst (matchTagBlock (txt "<style") (txt "</style>")) y = y :=
    subst_id _ _ (fun prev t ht => matchTagBlock_none _ _ prev t (not_mem_of_suffix ht h1))
  have hscript : subst (matchTagBlock (txt "<script") (txt "</script>")) y = y :=
    subst_id _ _ (fun prev t ht => matchTagBlock_none _ _ prev t (not_mem_of_suffix ht h1))
  have htag : subst matchTag y = y :=
    subst_id _ _ (fun prev t ht => matchTag_none prev t (not_mem_of_suffix ht h1))
  have hent : applyReplaces fetchEntities y = y :=
    applyReplaces_amp_id fetchEntities y (by decide) h2
  have hcss : subst matchCssDecl y = y :=
    subst_id _ _ (fun prev t ht => matchCssDecl_none prev t (not_mem_of_suffix ht h3))
  have hbrace : subst matchBraces y = y :=
    subst_id _ _ (fun prev t ht => matchBraces_none prev t (not_mem_of_suffix ht h4))
  show collapseWs (subst matchBraces (subst matchCssDecl (applyReplaces fetchEntities
      (subst matchTag (subst (matchTagBlock (txt "<script") (txt "</script>"))
        (subst (matchTagBlock (txt "<style") (txt "</style>")) y)))))) = collapseWs y
  rw [hstyle, hscript, htag, hent, hcss, hbrace]

/-- C2 (amended): the sanitization pipeline is not idempotent in general,
because entity decoding can reintroduce markup that a second pass strips;
it is idempotent on every input whose sanitized output contains no opening
angle bracket, no ampersand, no colon and no opening brace. -/
theorem sanitize_idempotent_on_inert_output (x : Text)
    (h : ∀ c ∈ sanitizeHtmlFallback x,
        c ≠ '<' ∧ c ≠ '&' ∧ c ≠ ':' ∧ c ≠ '\x7b') :
    sanitizeHtmlFallback (sanitizeHtmlFallback x) = sanitizeHtmlFallback x := by
  have h1 : '<' ∉ sanitizeHtmlFallback x := fun hm => (h _ hm).1 rfl
  have h2 : '&' ∉ sanitizeHtmlFallback x := fun hm => (h _ hm).2.1 rfl
  have h3 : ':' ∉ sanitizeHtmlFallback x := fun hm => (h _ hm).2.2.1 rfl
  have h4 : '\x7b' ∉ sanitizeHtmlFallback x := fun hm => (h _ hm).2.2.2 rfl
  rw [sanitizeHtmlFallback_of_inert _ h1 h2 h3 h4]
  exact collapseWs_idem _

/-- C2 witness: a plain sentence sanitizes to itself, satisfies the
inertness condition, and the theorem yields idempotence there. -/
theorem sanitize_idempotent_on_inert_output_witness :
    sanitizeHtmlFallback (sanitizeHtmlFallback (txt "plain text here")) =
      sanitizeHtmlFallback (txt "plain text here") :=
  sanitize_idempotent_on_inert_output (txt "plain text here") (by decide)

/-- C2 counterexample: entity decoding reintroduces a bold tag, which a
second pass strips, so the pipeline is not idempotent as claimed. -/
theorem sanitize_not_idempotent :
    sanitizeHtmlFallback exEntityInput = txt "<b>hi</b>" ∧
    sanitizeHtmlFallback (sanitizeHtmlFallback exEntityInput) = txt "hi" ∧
    sanitizeHtmlFallback (sanitizeHtmlFallback exEntityInput) ≠
      sanitizeHtmlFallback exEntityInput := by decide

/-- C5 (amended): a record body produced from the HTML fallback contains
no run of consecutive whitespace characters; bodies taken verbatim from a
plain text part satisfy no such invariant. -/
theorem html_fallback_body_no_ws_run (m : MimeMessage)
    (hb : (decodeBody m).1 = []) (hh : (decodeBody m).2 ≠ []) :
    hasWsRun (recordBody m) = false := by
  have hrec : recordBody m = sanitizeHtmlFallback (decodeBody m).2 := by
    unfold recordBody
    exact if_pos ⟨hb, hh⟩
  rw [hrec]
  exact hasWsRun_collapseWs _

/-- C5 witness: a message with only an html part gets a body with no
whitespace runs. -/
theorem html_fallback_body_no_ws_run_witness :
    hasWsRun (recordBody (MimeMessage.single
      ⟨txt "text/html", some (txt "x  y")⟩)) = false :=
  html_fallback_body_no_ws_run _ (by decide) (by decide)

/-- C5 counterexample: a plain text body is kept verbatim, so the claimed
record invariant fails: this body keeps an HTML tag and a whitespace
run. -/
theorem plain_body_keeps_markup_and_ws :
    recordBody exMsgPlainMarkup = txt "a  <b>c</b>" ∧
    hasWsRun (recordBody exMsgPlainMarkup) = true ∧
    containsSub (txt "<b>") (recordBody exMsgPlainMarkup) = true := by decide

/-- C7: the comment removal of fetch_emails lines 140 and 141 is applied
to the html variable after the body has been derived, so it has no effect:
a CSS comment in an HTML fallback body survives sanitization and its
contents appear in the record body, although the very substitution the
source builds on the dead branch would have removed it. -/
theorem css_comment_contents_survive :
    sanitizeHtmlFallback exCssCommentInput = exCssCommentInput ∧
    containsSub (txt "hidden") (sanitizeHtmlFallback exCssCommentInput) = true ∧
    subst matchCssComment exCssCommentInput = txt " keep" := by decide

/-- The concrete engine honours the retrieval contract. -/
theorem searchStore_le (q : Text) (m : Nat) : (searchStore q m).length ≤ m := by
  simp [searchStore]

/-- C1 (amended): for every retrieval engine that returns at most the
requested number of results, every query and every positive count k
passed explicitly, the assembled context has at most k email blocks; an
explicit zero is falsy in Python, so it is replaced by the configured
default count and the context may then be nonempty. -/
theorem retrieval_context_at_most_k (search : Text → Nat → List Text)
    (q : Text) (n dflt : Nat)
    (hEngine : ∀ q2 m, (search q2 m).length ≤ m) (hn : 0 < n) :
    (contextBlocks (search q (effectiveK dflt (some n)))).length ≤ n := by
  have hk : effectiveK dflt (some n) = n := by
    simp [effectiveK, Nat.pos_iff_ne_zero.mp hn]
  rw [hk]
  simpa [contextBlocks] using hEngine q n

/-- C1 witness: with the two document store and k equal to one, the
context has at most one block. -/
theorem retrieval_context_at_most_k_witness :
    (contextBlocks (searchStore (txt "q") (effectiveK 50 (some 1)))).length ≤ 1 :=
  retrieval_context_at_most_k searchStore (txt "q") 1 50 searchStore_le (by decide)

/-- C1 counterexample: with an explicit k of zero and the default count of
fifty, the two document store yields a context with two blocks, so the
context is not empty and exceeds the claimed bound of zero. -/
theorem retrieval_context_k_zero_not_empty :
    ¬ (contextBlocks (searchStore (txt "q") (effectiveK 50 (some 0)))).length ≤ 0 := by
  decide

/-- C4: query_emails with a memory leaves the previous history unchanged
and extends it by exactly a user turn carrying the question and then an
assistant turn carrying the answer, in that order. -/
theorem query_appends_user_then_assistant (search : Text → Nat → List Text)
    (llm : Text → Text → List Turn → Text) (dflt : Nat)
    (h : List Turn) (q : Text) (k : Option Nat) :
    (query_emails_mem search llm dflt h q k).1 =
      h ++ [⟨Role.user, q⟩,
            ⟨Role.assistant, (query_emails_mem search llm dflt h q k).2⟩] := by
  simp [query_emails_mem, save_context, List.lookup]

/-- C9: build_vector_store rejects an empty batch with the empty list
error, and a batch with any structurally invalid record is rejected with
the structural validation error; the error short-circuits the cleaning
loop, and embedding happens only on a successful result, so no record of
the batch is embedded or indexed. -/
theorem cleanedTexts_error_of_invalid : ∀ (es : List EmailDict),
    (∃ e ∈ es, validEmail e = false) →
    cleanedTexts es = .error .invalidEmailStructure := by
  intro es
  induction es with
  | nil => rintro ⟨e, he, _⟩; cases he
  | cons a es ih =>
    rintro ⟨e, he, hv⟩
    rcases List.mem_cons.mp he with rfl | hmem
    · simp [cleanedTexts, hv]
    · by_cases ha : validEmail a = true
      · have hrec := ih ⟨e, hmem, hv⟩
        simp [cleanedTexts, ha, hrec]
      · have ha2 : validEmail a = false := by simpa using ha
        simp [cleanedTexts, ha2]

theorem build_vector_store_validation :
    build_vector_store [] = .error .emptyEmailList ∧
    ∀ es : List EmailDict, (∃ e ∈ es, validEmail e = false) →
      build_vector_store es = .error .invalidEmailStructure := by
  constructor
  · rfl
  · intro es hex
    have hne : es ≠ [] := by
      rintro rfl
      obtain ⟨e, he, _⟩ := hex
      cases he
    unfold build_vector_store
    rw [if_neg hne]
    exact cleanedTexts_error_of_invalid es hex

/-- C9 witness: a batch whose only record misses the body key is rejected
with the structural validation error. -/
theorem build_vector_store_validation_witness :
    build_vector_store [exBadEmail] = .error .invalidEmailStructure :=
  build_vector_store_validation.2 [exBadEmail]
    ⟨exBadEmail, List.mem_cons_self _ _, by decide⟩

/-- C10: for a single part message of any content type other than
text/html, the decoded payload becomes the record body verbatim, and an
absent payload or a decode failure yields the empty body instead of an
error. -/
theorem single_part_nonhtml_verbatim (p : MimePart)
    (h : p.contentType ≠ txt "text/html") :
    recordBody (.single p) = p.payload.getD [] := by
  cases hpl : p.payload with
  | none => simp [recordBody, decodeBody, hpl]
  | some d =>
    by_cases hd : d = []
    · simp [recordBody, decodeBody, hpl, hd]
    · simp [recordBody, decodeBody, hpl, hd, h]

/-- C10 witness: a single part message with an arbitrary non html content
type keeps its payload verbatim. -/
theorem single_part_nonhtml_verbatim_witness :
    recordBody (MimeMessage.single
      ⟨txt "application/json", some (txt "raw data")⟩) = txt "raw data" :=
  single_part_nonhtml_verbatim _ (by decide)

/-- The plain and html content type literals differ. -/
theorem plain_ne_html : txt "text/plain" ≠ txt "text/html" := by decide

/-- The html and plain content type literals differ. -/
theorem html_ne_plain : txt "text/html" ≠ txt "text/plain" := by decide

/-- When the walk finds a decodable plain text part, its payload becomes
the first component of the result, whatever the html fallback was. -/
theorem walkParts_first_plain : ∀ (parts : List MimePart) (hb s : Text),
    firstPlainPayload (.multi parts) = some s →
    ∃ h2, walkParts parts [] hb = (s, h2) := by
  intro parts
  induction parts with
  | nil =>
    intro hb s h
    simp [firstPlainPayload, List.find?] at h
  | cons p rest ih =>
    intro hb s h
    rw [firstPlainPayload, List.find?_cons] at h
    by_cases hct : p.contentType = txt "text/plain"
    · cases hpl : p.payload with
      | some v =>
        rw [show (decide (p.contentType = txt "text/plain") && p.payload.isSome) = true by
              simp [hct, hpl]] at h
        simp only [] at h
        rw [hpl] at h
        obtain rfl : v = s := by simpa using h
        refine ⟨hb, ?_⟩
        simp [walkParts, hct, hpl]
      | none =>
        rw [show (decide (p.contentType = txt "text/plain") && p.payload.isSome) = false by
              simp [hpl]] at h
        simp only [] at h
        have hrest : firstPlainPayload (.multi rest) = some s := by
          rw [firstPlainPayload]; exact h
        obtain ⟨h2, hw⟩ := ih hb s hrest
        refine ⟨h2, ?_⟩
        rw [← hw]
        simp [walkParts, hct, hpl]
    · rw [show (decide (p.contentType = txt "text/plain") && p.payload.isSome) = false by
            simp [hct]] at h
      simp only [] at h
      have hrest : firstPlainPayload (.multi rest) = some s := by
        rw [firstPlainPayload]; exact h
      by_cases hh : p.contentType = txt "text/html"
      · cases hpl : p.payload with
        | some v =>
          obtain ⟨h2, hw⟩ := ih v s hrest
          refine ⟨h2, ?_⟩
          rw [← hw]
          simp [walkParts, hct, hh, hpl, html_ne_plain]
        | none =>
          obtain ⟨h2, hw⟩ := ih hb s hrest
          refine ⟨h2, ?_⟩
          rw [← hw]
          simp [walkParts, hct, hh, hpl, html_ne_plain]
      · obtain ⟨h2, hw⟩ := ih hb s hrest
        refine ⟨h2, ?_⟩
        rw [← hw]
        simp [walkParts, hct, hh]

/-- C3 (amended): whenever the first decodable plain text payload of a
message is nonempty, the record body is exactly that payload with no
sanitization applied; when the plain payload is empty and an html part was
decoded earlier, the empty body is falsy and the sanitized html is used
instead. -/
theorem plain_body_verbatim (m : MimeMessage) (s : Text)
    (h1 : firstPlainPayload m = some s) (h2 : s ≠ []) : recordBody m = s := by
  cases m with
  | single p =>
    rw [firstPlainPayload] at h1
    by_cases hct : p.contentType = txt "text/plain"
    · rw [if_pos hct] at h1
      have hne : p.contentType ≠ txt "text/html" := by rw [hct]; exact plain_ne_html
      simp [recordBody, decodeBody, h1, h2, hne]
    · rw [if_neg hct] at h1
      cases h1
  | multi parts =>
    obtain ⟨hfb, hw⟩ := walkParts_first_plain parts [] s h1
    have hrec : decodeBody (.multi parts) = (s, hfb) := hw
    unfold recordBody
    rw [hrec]
    exact if_neg (fun hc => h2 hc.1)

/-- C3 witness: a nonempty plain payload is the record body verbatim. -/
theorem plain_body_verbatim_witness :
    recordBody (MimeMessage.multi
      [⟨txt "text/plain", some (txt "hello")⟩]) = txt "hello" :=
  plain_body_verbatim _ _ (by decide) (by decide)

/-- C3 counterexample: the message has a decodable plain text part whose
payload is the empty string, yet the record body is the sanitized html
fallback rather than that payload. -/
theorem empty_plain_not_verbatim :
    firstPlainPayload exMsgEmptyPlain = some [] ∧
    recordBody exMsgEmptyPlain = txt "H" := by decide

/-- C6 (amended): when no plain text part decodes, the walk keeps the
body empty and the html fallback is the payload of the last html part
that decoded, each successful html decode overwriting the previous one. -/
theorem html_fallback_is_last (parts : List MimePart)
    (hplain : ∀ p ∈ parts, p.contentType = txt "text/plain" → p.payload = none) :
    ∀ hb, walkParts parts [] hb = ([], lastHtmlFallback parts hb) := by
  induction parts with
  | nil => intro hb; rfl
  | cons p rest ih =>
    intro hb
    have hrest : ∀ q ∈ rest, q.contentType = txt "text/plain" → q.payload = none :=
      fun q hq => hplain q (List.mem_cons_of_mem _ hq)
    by_cases hct : p.contentType = txt "text/plain"
    · have hp := hplain p (List.mem_cons_self _ _) hct
      have hnh : p.contentType ≠ txt "text/html" := by rw [hct]; exact plain_ne_html
      rw [show lastHtmlFallback (p :: rest) hb = lastHtmlFallback rest hb by
            simp [lastHtmlFallback, hnh]]
      rw [← ih hrest hb]
      simp [walkParts, hct, hp]
    · by_cases hh : p.contentType = txt "text/html"
      · cases hpl : p.payload with
        | some v =>
          rw [show lastHtmlFallback (p :: rest) hb = lastHtmlFallback rest v by
                simp [lastHtmlFallback, hh, hpl]]
          rw [← ih hrest v]
          simp [walkParts, hct, hh, hpl, html_ne_plain]
        | none =>
          rw [show lastHtmlFallback (p :: rest) hb = lastHtmlFallback rest hb by
                simp [lastHtmlFallback, hh, hpl]]
          rw [← ih hrest hb]
          simp [walkParts, hct, hh, hpl, html_ne_plain]
      · rw [show lastHtmlFallback (p :: rest) hb = lastHtmlFallback rest hb by
              simp [lastHtmlFallback, hh]]
        rw [← ih hrest hb]
        simp [walkParts, hct, hh]

/-- C6 witness: with one undecodable plain part and two decodable html
parts, the selected fallback is the payload of the last html part. -/
theorem html_fallback_is_last_witness :
    walkParts [⟨txt "text/plain", none⟩, ⟨txt "text/html", some (txt "A")⟩,
               ⟨txt "text/html", some (txt "B")⟩] [] [] = ([], txt "B") := by
  have h := html_fallback_is_last
    [⟨txt "text/plain", none⟩, ⟨txt "text/html", some (txt "A")⟩,
     ⟨txt "text/html", some (txt "B")⟩] (by decide) []
  rw [h]
  decide

/-- C6 counterexample: with two html parts and no plain text part, the
decoder selects the second html payload, not the first one. -/
theorem html_selection_not_first :
    (walkParts exPartsTwoHtml [] []).2 = txt "B" ∧ txt "B" ≠ txt "A" := by decide

/-! Lemmas for the date handling of the mailbox search expression. -/

theorem validDate_iff (dt : Date) : validDate dt = true ↔
    (1 ≤ dt.y ∧ dt.y ≤ 9999 ∧ 1 ≤ dt.m ∧ dt.m ≤ 12 ∧
     1 ≤ dt.d ∧ dt.d ≤ daysInMonth dt.y dt.m) := by
  simp [validDate, Bool.and_eq_true, decide_eq_true_eq, and_assoc]

theorem daysInMonth_le_31 (y m : Nat) : daysInMonth y m ≤ 31 := by
  unfold daysInMonth
  split_ifs <;> omega

theorem digitChar_isDigit (n : Nat) (h : n < 10) : (digitChar n).isDigit = true := by
  interval_cases n <;> decide

theorem digitChar_ne_dash (n : Nat) (h : n < 10) : digitChar n ≠ '-' := by
  interval_cases n <;> decide

theorem digitChar_toNat (n : Nat) (h : n < 10) : (digitChar n).toNat = 48 + n := by
  interval_cases n <;> decide

theorem pad2_allDigits (n : Nat) : allDigits (pad2 n) = true := by
  have h1 := digitChar_isDigit (n / 10 % 10) (Nat.mod_lt _ (by norm_num))
  have h2 := digitChar_isDigit (n % 10) (Nat.mod_lt _ (by norm_num))
  simp [allDigits, pad2, h1, h2]

theorem pad2_no_dash (n : Nat) : ∀ c ∈ pad2 n, c ≠ '-' := by
  intro c hc
  simp only [pad2, List.mem_cons, List.mem_singleton] at hc
  rcases hc with rfl | rfl | hfalse
  · exact digitChar_ne_dash _ (Nat.mod_lt _ (by norm_num))
  · exact digitChar_ne_dash _ (Nat.mod_lt _ (by norm_num))
  · cases hfalse

theorem pad4_allDigits (n : Nat) : allDigits (pad4 n) = true := by
  have h1 := digitChar_isDigit (n / 1000 % 10) (Nat.mod_lt _ (by norm_num))
  have h2 := digitChar_isDigit (n / 100 % 10) (Nat.mod_lt _ (by norm_num))
  have h3 := digitChar_isDigit (n / 10 % 10) (Nat.mod_lt _ (by norm_num))
  have h4 := digitChar_isDigit (n % 10) (Nat.mod_lt _ (by norm_num))
  simp [allDigits, pad4, h1, h2, h3, h4]

theorem pad4_no_dash (n : Nat) : ∀ c ∈ pad4 n, c ≠ '-' := by
  intro c hc
  simp only [pad4, List.mem_cons, List.mem_singleton] at hc
  rcases hc with rfl | rfl | rfl | rfl | hfalse
  · exact digitChar_ne_dash _ (Nat.mod_lt _ (by norm_num))
  · exact digitChar_ne_dash _ (Nat.mod_lt _ (by norm_num))
  · exact digitChar_ne_dash _ (Nat.mod_lt _ (by norm_num))
  · exact digitChar_ne_dash _ (Nat.mod_lt _ (by norm_num))
  · cases hfalse

theorem natOfDigits_pad2 (n : Nat) (h : n < 100) : natOfDigits (pad2 n) = n := by
  have h1 := digitChar_toNat (n / 10 % 10) (Nat.mod_lt _ (by norm_num))
  have h2 := digitChar_toNat (n % 10) (Nat.mod_lt _ (by norm_num))
  simp [natOfDigits, pad2, h1, h2]
  omega

theorem natOfDigits_pad4 (n : Nat) (h : n < 10000) : natOfDigits (pad4 n) = n := by
  have h1 := digitChar_toNat (n / 1000 % 10) (Nat.mod_lt _ (by norm_num))
  have h2 := digitChar_toNat (n / 100 % 10) (Nat.mod_lt _ (by norm_num))
  have h3 := digitChar_toNat (n / 10 % 10) (Nat.mod_lt _ (by norm_num))
  have h4 := digitChar_toNat (n % 10) (Nat.mod_lt _ (by norm_num))
  simp [natOfDigits, pad4, h1, h2, h3, h4]
  omega

theorem splitOnAux_nil_eq (sep : Char) (acc : Text) :
    splitOnAux sep [] acc = [acc.reverse] := rfl

theorem splitOnAux_cons_eq (sep c : Char) (cs acc : Text) :
    splitOnAux sep (c :: cs) acc =
      if c = sep then acc.reverse :: splitOnAux sep cs []
      else splitOnAux sep cs (c :: acc) := rfl

theorem splitOnAux_word_skip (sep : Char) (w : Text) (hw : ∀ c ∈ w, c ≠ sep) :
    ∀ (s acc : Text),
      splitOnAux sep (w ++ s) acc = splitOnAux sep s (w.reverse ++ acc) := by
  induction w with
  | nil => intro s acc; simp
  | cons a w ih =>
    intro s acc
    have ha := hw a (List.mem_cons_self _ _)
    rw [List.cons_append, splitOnAux_cons_eq, if_neg ha]
    rw [ih (fun c hc => hw c (List.mem_cons_of_mem _ hc)) s (a :: acc)]
    simp [List.append_assoc]

theorem splitOnChar_three (sep : Char) (a b c : Text)
    (ha : ∀ x ∈ a, x ≠ sep) (hb : ∀ x ∈ b, x ≠ sep) (hc : ∀ x ∈ c, x ≠ sep) :
    splitOnChar sep (a ++ sep :: b ++ sep :: c) = [a, b, c] := by
  unfold splitOnChar
  rw [List.append_assoc, List.cons_append]
  rw [splitOnAux_word_skip sep a ha, splitOnAux_cons_eq, if_pos rfl]
  rw [splitOnAux_word_skip sep b hb, splitOnAux_cons_eq, if_pos rfl]
  have hcw := splitOnAux_word_skip sep c hc [] []
  rw [List.append_nil] at hcw
  rw [hcw, splitOnAux_nil_eq]
  simp

theorem parseDate_formatISO (dt : Date) (hv : validDate dt = true) :
    parseDate (formatISO dt) = some dt := by
  obtain ⟨h1, h2, h3, h4, h5, h6⟩ := (validDate_iff dt).mp hv
  have hmlt : dt.m < 100 := by omega
  have hdlt : dt.d < 100 := by
    have := daysInMonth_le_31 dt.y dt.m
    omega
  have hylt : dt.y < 10000 := by omega
  unfold parseDate formatISO
  rw [splitOnChar_three '-' (pad4 dt.y) (pad2 dt.m) (pad2 dt.d)
      (pad4_no_dash dt.y) (pad2_no_dash dt.m) (pad2_no_dash dt.d)]
  have hcond : (allDigits (pad4 dt.y) && decide (pad4 dt.y ≠ []) &&
      decide ((pad4 dt.y).length ≤ 4) && allDigits (pad2 dt.m) &&
      decide (pad2 dt.m ≠ []) && decide ((pad2 dt.m).length ≤ 2) &&
      allDigits (pad2 dt.d) && decide (pad2 dt.d ≠ []) &&
      decide ((pad2 dt.d).length ≤ 2)) = true := by
    rw [pad4_allDigits dt.y, pad2_allDigits dt.m, pad2_allDigits dt.d]
    simp [pad4, pad2]
  simp only [hcond, if_true, natOfDigits_pad4 dt.y hylt,
             natOfDigits_pad2 dt.m hmlt, natOfDigits_pad2 dt.d hdlt]
  have hdt : (⟨dt.y, dt.m, dt.d⟩ : Date) = dt := rfl
  rw [hdt, if_pos hv]

theorem Date_eq_iff (a b : Date) : a = b ↔ a.y = b.y ∧ a.m = b.m ∧ a.d = b.d := by
  cases a; cases b; simp

theorem dateLe_iff_lt_succ (t e : Date) (ht : validDate t = true)
    (he : validDate e = true) : dateLe t e ↔ dateLt t (calSucc e) := by
  obtain ⟨ht1, ht2, ht3, ht4, ht5, ht6⟩ := (validDate_iff t).mp ht
  obtain ⟨he1, he2, he3, he4, he5, he6⟩ := (validDate_iff e).mp he
  unfold calSucc
  split_ifs with hd hm
  · simp only [dateLe, dateLt, Date_eq_iff]
    omega
  · have hkey : t.y = e.y → t.m = e.m → t.d ≤ e.d := by
      intro hy hmm
      have hde : e.d = daysInMonth e.y e.m := by omega
      rw [hde, ← hy, ← hmm]
      exact ht6
    simp only [dateLe, dateLt, Date_eq_iff]
    omega
  · have hm12 : e.m = 12 := by omega
    have hd31 : daysInMonth e.y e.m = 31 := by rw [hm12]; rfl
    have hkey : t.m = 12 → t.d ≤ 31 := by
      intro hmm
      have h31 : daysInMonth t.y t.m = 31 := by rw [hmm]; rfl
      omega
    simp only [dateLe, dateLt, Date_eq_iff]
    omega

/-- C8: for valid four digit dates rendered in ISO form, fetch_emails
builds the search expression SINCE s BEFORE e where s is the start date in
day month-abbreviation year form and e is the end date plus exactly one
calendar day in the same form; and a valid date t is at most the end date
exactly when it is strictly before that successor, which makes the caller
visible range inclusive on both ends under the semantics of the SINCE and
BEFORE primitives. -/
theorem search_query_inclusive_range (s e : Date)
    (hs : validDate s = true) (he : validDate e = true)
    (_hys : 1000 ≤ s.y) (_hye : 1000 ≤ e.y)
    (hov : ¬(e.y = 9999 ∧ e.m = 12 ∧ e.d = 31)) :
    buildSearchQuery (formatISO s) (formatISO e) =
      some (txt "(SINCE \"" ++ formatDMY s ++ txt "\" BEFORE \"" ++
            formatDMY (calSucc e) ++ txt "\")") ∧
    ∀ t : Date, validDate t = true → (dateLe t e ↔ dateLt t (calSucc e)) := by
  constructor
  · unfold buildSearchQuery
    simp [parseDate_formatISO e he, parseDate_formatISO s hs, hov]
  · intro t htv
    exact dateLe_iff_lt_succ t e htv he

/-- C8 witness: the concrete range of the repository example produces the
expected search expression with the end date advanced by one day. -/
theorem search_query_inclusive_range_witness :
    buildSearchQuery (txt "2025-11-20") (txt "2025-11-22") =
      some (txt "(SINCE \"20-Nov-2025\" BEFORE \"23-Nov-2025\")") := by
  have h := (search_query_inclusive_range ⟨2025, 11, 20⟩ ⟨2025, 11, 22⟩
    (by decide) (by decide) (by decide) (by decide) (by decide)).1
  rw [show txt "2025-11-20" = formatISO ⟨2025, 11, 20⟩ by decide,
      show txt "2025-11-22" = formatISO ⟨2025, 11, 22⟩ by decide, h]
  decide
